import Mathlib

/-!
Verification of the attribute uniquing (hash-consing) core of
`include/mlir/IR/AttributeSupport.h`.

The header under verification declares `AttributeStorage` (the base storage
every attribute payload embeds: an owning-dialect back pointer and a
`PointerIntPair` packing the value type with a one-bit function-cache flag)
and the `AttributeUniquer` façade whose `get`/`erase` delegate to the
context's `StorageUniquer`.  The `StorageUniquer` engine itself, the
`AttributeStorage` constructor bodies and the dialect init callback built by
`getInitFn` live outside the sources at hand, so those parts are modelled
from the specification (each such definition says so in its doc comment).

Modelling conventions:
- pointers are modelled as `Nat` identifiers; a null pointer is `none` of an
  `Option`; pointer (identity) equality of two published instances is
  equality of their `id` fields, which the engine hands out from a
  monotone counter (the arena: memory is never reused while the session
  lives);
- the per-kind hash table is a list of published instances, each tagged with
  the hash of the key it was created from; a probe compares the stored hash
  and then the kind's `isEqual`, like a bucketed table does;
- the per-kind guard serializes `get`/`erase`, so concurrent executions are
  modelled as sequential compositions of atomic operations.
-/

namespace MLIRAttr

/-- Value types attached to attributes, with the session's canonical
"no type" sentinel `NoneType`. -/
inductive MType where
  | noneType : MType
  | concrete : Nat → MType
deriving DecidableEq

/-- Base storage class appearing in an attribute
(`AttributeStorage` in AttributeSupport.h).  The source packs `valueType`
and `containsFunctionCache` into one `llvm::PointerIntPair`; they are two
fields here.  `dialect` is the owning-dialect back pointer (null until the
uniquer initializes it), `valueType` the pointer component of the pair
(null when the constructor got no type). -/
structure AttributeStorage where
  dialect : Option Nat
  valueType : Option MType
  containsFunctionCache : Bool
deriving DecidableEq

namespace AttributeStorage

/-- Returns if the derived attribute is or contains a function pointer:
reads the int of the pointer-int pair (`isOrContainsFunctionCache`). -/
def isOrContainsFunctionCache (s : AttributeStorage) : Bool :=
  s.containsFunctionCache

/-- Get the type of this attribute (`getType`; the raw pointer of the pair,
null when never set). -/
def getType (s : AttributeStorage) : Option MType :=
  s.valueType

/-- Get the dialect of this attribute (`getDialect`).  The source asserts
`dialect` is non-null and dereferences; the model returns the raw pointer
so that the assertion can be stated as `isSome` on returned instances. -/
def getDialect (s : AttributeStorage) : Option Nat :=
  s.dialect

/-- Set the type of this attribute (`setType`). -/
def setType (s : AttributeStorage) (t : MType) : AttributeStorage :=
  { s with valueType := some t }

/-- Set the dialect for this storage instance, used by the uniquer when
publishing a newly constructed storage object (the source's
`initializeDialect`). -/
def initDialect (s : AttributeStorage) (d : Nat) : AttributeStorage :=
  { s with dialect := some d }

/-- Modelled from the spec: constructor `AttributeStorage(Type, bool)`
(body not among the sources).  Stores the pair; the dialect pointer is
not yet set. -/
def mkTypeFlag (t : MType) (flag : Bool) : AttributeStorage :=
  { dialect := none, valueType := some t, containsFunctionCache := flag }

/-- Modelled from the spec: the type-only use of `AttributeStorage(Type,
bool)` with its defaulted second argument `false`. -/
def mkTyped (t : MType) : AttributeStorage :=
  mkTypeFlag t false

/-- Modelled from the spec: constructor `AttributeStorage(bool)` (body not
among the sources).  No type is provided; per the header comment the type
will default to `NoneType` upon initialization in the uniquer. -/
def mkFlag (flag : Bool) : AttributeStorage :=
  { dialect := none, valueType := none, containsFunctionCache := flag }

/-- Modelled from the spec: the default constructor `AttributeStorage()`
(body not among the sources): no type, no function-cache flag. -/
def mkDefault : AttributeStorage :=
  { dialect := none, valueType := none, containsFunctionCache := false }

end AttributeStorage

/-- Per-kind construction trait: the three operations a concrete payload
kind registers with the engine (spec §4.2).  `construct` returns the base
storage it built together with the kind-specific payload, or `none` on
construction failure. -/
structure UniquerTrait (K V : Type) where
  hashKey : K → Nat
  isEqual : V → K → Bool
  construct : K → Option (AttributeStorage × V)

/-- A published instance in a kind's uniquing table: its arena identity
(pointer), the hash recorded at insertion, the base storage and the
payload. -/
structure Inst (V : Type) where
  id : Nat
  hashValue : Nat
  storage : AttributeStorage
  payload : V
deriving DecidableEq

/-- State of one kind's uniquing table: the published instances, the arena
counter handing out fresh identities, and a count of `construct` calls
(instrumentation for the single-construction properties). -/
structure UniquerState (V : Type) where
  table : List (Inst V)
  nextId : Nat
  constructCount : Nat
deriving DecidableEq

/-- The empty table of a fresh session. -/
def emptyState (V : Type) : UniquerState V :=
  { table := [], nextId := 0, constructCount := 0 }

/-- Modelled from the spec: a table probe for key `k` matches a stored
instance when the recorded hash equals `hashKey k` and the kind's
`isEqual` accepts it (spec §4.3). -/
def matchesKey (tr : UniquerTrait K V) (k : K) (i : Inst V) : Bool :=
  i.hashValue == tr.hashKey k && tr.isEqual i.payload k

/-- Modelled from the spec: the init callback built by
`AttributeUniquer::getInitFn` (body not among the sources): it calls
`initializeDialect` with the dialect resolved for the attribute kind and
defaults the value type to `NoneType` when the constructor set none. -/
def initAttribute (d : Nat) (s : AttributeStorage) : AttributeStorage :=
  let s1 := s.initDialect d
  match s1.valueType with
  | none => s1.setType MType.noneType
  | some _ => s1

namespace AttributeUniquer

/-- Modelled from the spec: `StorageUniquer::get` as called through
`AttributeUniquer::get` (engine not among the sources, spec §4.3): under
the kind's guard, probe for an existing instance; on a hit return it
unchanged; on a miss run the trait's `construct`, propagate its failure
with no table mutation, otherwise run the init callback, insert the fresh
instance and return it. -/
def get (tr : UniquerTrait K V) (d : Nat) (k : K) (st : UniquerState V) :
    Option (Inst V) × UniquerState V :=
  match st.table.find? (matchesKey tr k) with
  | some i => (some i, st)
  | none =>
    match tr.construct k with
    | none => (none, st)
    | some sv =>
      let i : Inst V :=
        { id := st.nextId, hashValue := tr.hashKey k,
          storage := initAttribute d sv.1, payload := sv.2 }
      (some i,
        { table := i :: st.table, nextId := st.nextId + 1,
          constructCount := st.constructCount + 1 })

/-- Modelled from the spec: `StorageUniquer::erase` as called through
`AttributeUniquer::erase` (engine not among the sources, spec §4.3): under
the same guard, remove any instance the probe matches; no-op if absent; no
memory is freed (the arena counter is untouched). -/
def erase (tr : UniquerTrait K V) (k : K) (st : UniquerState V) :
    UniquerState V :=
  { st with table := st.table.filter (fun i => !(matchesKey tr k i)) }

/-- `n` successive `get` calls with the same key: the sequential execution
the per-kind guard imposes on `n` contending callers. -/
def getN (tr : UniquerTrait K V) (d : Nat) (k : K) :
    Nat → UniquerState V → List (Option (Inst V)) × UniquerState V
  | 0, st => ([], st)
  | n + 1, st =>
    let r1 := get tr d k st
    let r2 := getN tr d k n r1.2
    (r1.1 :: r2.1, r2.2)

end AttributeUniquer

/-- An atomic operation on one kind's table, as serialized by its guard. -/
inductive Op (K : Type) where
  | getOp : Nat → K → Op K
  | eraseOp : K → Op K

/-- Run a serialized sequence of operations; a failed `get` leaves the
state unchanged, so the run always proceeds. -/
def runOps (tr : UniquerTrait K V) :
    List (Op K) → UniquerState V → UniquerState V
  | [], st => st
  | Op.getOp d k :: ops, st => runOps tr ops (AttributeUniquer.get tr d k st).2
  | Op.eraseOp k :: ops, st => runOps tr ops (AttributeUniquer.erase tr k st)

/-- Well-formedness of a table state: every published instance has its
dialect back pointer and its value type set, carries an identity below the
arena counter, and identities are pairwise distinct. -/
def goodState (st : UniquerState V) : Prop :=
  (∀ i ∈ st.table,
      i.storage.dialect.isSome = true ∧ i.storage.valueType.isSome = true ∧
      i.id < st.nextId) ∧
  (st.table.map Inst.id).Nodup

/-- The trait contract that `construct` builds an instance representing its
key: the constructed payload is `isEqual`-accepted by that key (spec §4.2). -/
def constructMatches (tr : UniquerTrait K V) (k : K) : Prop :=
  ∀ s v, tr.construct k = some (s, v) → tr.isEqual v k = true

/-- The instance `get` builds on a table miss. -/
def freshInst (tr : UniquerTrait K V) (d : Nat) (k : K) (st : UniquerState V)
    (s : AttributeStorage) (v : V) : Inst V :=
  { id := st.nextId, hashValue := tr.hashKey k,
    storage := initAttribute d s, payload := v }

/-- The state `get` leaves behind after inserting a fresh instance. -/
def insertState (tr : UniquerTrait K V) (d : Nat) (k : K)
    (st : UniquerState V) (s : AttributeStorage) (v : V) : UniquerState V :=
  { table := freshInst tr d k st s v :: st.table, nextId := st.nextId + 1,
    constructCount := st.constructCount + 1 }

/-- A concrete attribute kind used to exercise the engine: keys and
payloads are numbers, an instance represents exactly its key, and key 13
fails construction. -/
def natTrait : UniquerTrait Nat Nat where
  hashKey k := k % 16
  isEqual v k := v == k
  construct k :=
    if k == 13 then none else some (AttributeStorage.mkFlag false, k)

/-- A concrete attribute kind whose keys denote their value modulo 10:
distinct keys can denote the same logical value. -/
def modTrait : UniquerTrait Nat Nat where
  hashKey k := k % 10
  isEqual v k := v % 10 == k % 10
  construct k := some (AttributeStorage.mkDefault, k)

/-- The instance `natTrait` publishes for key 5 under dialect 3 in a fresh
session. -/
def instN : Inst Nat :=
  { id := 0, hashValue := 5,
    storage := { dialect := some 3, valueType := some MType.noneType,
                 containsFunctionCache := false },
    payload := 5 }

/-- The table state right after publishing `instN`. -/
def stN : UniquerState Nat :=
  { table := [instN], nextId := 1, constructCount := 1 }

/-- The instance `modTrait` publishes for key 5 under dialect 0 in a fresh
session. -/
def instW : Inst Nat :=
  { id := 0, hashValue := 5,
    storage := { dialect := some 0, valueType := some MType.noneType,
                 containsFunctionCache := false },
    payload := 5 }

/-- The table state right after publishing `instW`. -/
def stW : UniquerState Nat :=
  { table := [instW], nextId := 1, constructCount := 1 }

/-- The instance `natTrait` publishes for key 6 under dialect 4 after
`instN`. -/
def instN6 : Inst Nat :=
  { id := 1, hashValue := 6,
    storage := { dialect := some 4, valueType := some MType.noneType,
                 containsFunctionCache := false },
    payload := 6 }

/-- The table state holding `instN6` and `instN`. -/
def stN6 : UniquerState Nat :=
  { table := [instN6, instN], nextId := 2, constructCount := 2 }

namespace AttributeUniquer

theorem get_hit (tr : UniquerTrait K V) (d : Nat) (k : K)
    (st : UniquerState V) (i : Inst V)
    (h : st.table.find? (matchesKey tr k) = some i) :
    get tr d k st = (some i, st) := by
  unfold get
  rw [h]

theorem get_miss_fail (tr : UniquerTrait K V) (d : Nat) (k : K)
    (st : UniquerState V)
    (h1 : st.table.find? (matchesKey tr k) = none)
    (h2 : tr.construct k = none) :
    get tr d k st = (none, st) := by
  unfold get
  rw [h1, h2]

theorem get_miss_construct (tr : UniquerTrait K V) (d : Nat) (k : K)
    (st : UniquerState V) (s : AttributeStorage) (v : V)
    (h1 : st.table.find? (matchesKey tr k) = none)
    (h2 : tr.construct k = some (s, v)) :
    get tr d k st = (some (freshInst tr d k st s v), insertState tr d k st s v) := by
  unfold get
  rw [h1, h2]
  rfl

/-- The freshly inserted instance is matched by its own key, given the
trait contract for that key. -/
theorem matchesKey_freshInst (tr : UniquerTrait K V) (d : Nat) (k : K)
    (st : UniquerState V) (s : AttributeStorage) (v : V)
    (hcons : constructMatches tr k) (h2 : tr.construct k = some (s, v)) :
    matchesKey tr k (freshInst tr d k st s v) = true := by
  simp [matchesKey, freshInst, hcons s v h2]

/-- After a successful `get`, the resulting table's probe for the same key
finds exactly the instance `get` returned. -/
theorem get_some_find? (tr : UniquerTrait K V) (d : Nat) (k : K)
    (st st1 : UniquerState V) (i : Inst V)
    (hcons : constructMatches tr k)
    (h : get tr d k st = (some i, st1)) :
    st1.table.find? (matchesKey tr k) = some i := by
  cases hf : st.table.find? (matchesKey tr k) with
  | some j =>
    rw [get_hit tr d k st j hf] at h
    simp only [Prod.mk.injEq, Option.some.injEq] at h
    obtain ⟨h1, h2⟩ := h
    subst h1
    subst h2
    exact hf
  | none =>
    cases hc : tr.construct k with
    | none =>
      rw [get_miss_fail tr d k st hf hc] at h
      simp at h
    | some sv =>
      obtain ⟨s, v⟩ := sv
      rw [get_miss_construct tr d k st s v hf hc] at h
      simp only [Prod.mk.injEq, Option.some.injEq] at h
      obtain ⟨h1, h2⟩ := h
      subst h1
      subst h2
      exact List.find?_cons_of_pos _ (matchesKey_freshInst tr d k st s v hcons hc)

/-- Immediately repeating a successful `get` with the same key is a hit on
the instance the first call returned, and changes nothing. -/
theorem get_stable (tr : UniquerTrait K V) (d d' : Nat) (k : K)
    (st st1 : UniquerState V) (i : Inst V)
    (hcons : constructMatches tr k)
    (h : get tr d k st = (some i, st1)) :
    get tr d' k st1 = (some i, st1) :=
  get_hit tr d' k st1 i (get_some_find? tr d k st st1 i hcons h)

/-- Any number of repeated `get` calls after a successful one keep
returning the first call's instance and leave the state untouched. -/
theorem getN_stable (tr : UniquerTrait K V) (d d' : Nat) (k : K)
    (st st1 : UniquerState V) (i : Inst V)
    (hcons : constructMatches tr k)
    (h : get tr d k st = (some i, st1)) :
    ∀ n, getN tr d' k n st1 = (List.replicate n (some i), st1) := by
  intro n
  induction n with
  | zero => rfl
  | succ m ih =>
    have hs : get tr d' k st1 = (some i, st1) := get_stable tr d d' k st st1 i hcons h
    show (let r1 := get tr d' k st1
          let r2 := getN tr d' k m r1.2
          (r1.1 :: r2.1, r2.2)) = _
    rw [hs]
    simp only []
    rw [ih]
    rfl

theorem get_nextId_le (tr : UniquerTrait K V) (d : Nat) (k : K)
    (st : UniquerState V) : st.nextId ≤ (get tr d k st).2.nextId := by
  unfold get
  cases hf : st.table.find? (matchesKey tr k) with
  | some j => exact Nat.le_refl _
  | none =>
    cases hc : tr.construct k with
    | none => exact Nat.le_refl _
    | some sv => exact Nat.le_succ _

theorem erase_nextId (tr : UniquerTrait K V) (k : K) (st : UniquerState V) :
    (erase tr k st).nextId = st.nextId := rfl

theorem runOps_nextId_le (tr : UniquerTrait K V) (ops : List (Op K)) :
    ∀ st : UniquerState V, st.nextId ≤ (runOps tr ops st).nextId := by
  induction ops with
  | nil => intro st; exact Nat.le_refl _
  | cons op ops ih =>
    intro st
    cases op with
    | getOp d k =>
      exact Nat.le_trans (get_nextId_le tr d k st) (ih _)
    | eraseOp k =>
      exact Nat.le_trans (Nat.le_of_eq (erase_nextId tr k st).symm) (ih _)

/-- On a table with no probe match for `k` (in particular right after an
`erase` with key `k`), a probe for `k` finds nothing. -/
theorem erase_find?_none (tr : UniquerTrait K V) (k : K) (st : UniquerState V) :
    (erase tr k st).table.find? (matchesKey tr k) = none := by
  apply List.find?_eq_none.2
  intro i hi
  have := (List.mem_filter.1 hi).2
  simp only [Bool.not_eq_true'] at this
  simp [this]

/-- The identity of an instance returned by `get` is below the arena
counter of the state `get` leaves behind. -/
theorem get_ret_id_lt (tr : UniquerTrait K V) (d : Nat) (k : K)
    (st st' : UniquerState V) (i : Inst V)
    (hgood : goodState st) (h : get tr d k st = (some i, st')) :
    i.id < st'.nextId := by
  cases hf : st.table.find? (matchesKey tr k) with
  | some j =>
    rw [get_hit tr d k st j hf] at h
    simp only [Prod.mk.injEq, Option.some.injEq] at h
    obtain ⟨h1, h2⟩ := h
    subst h1
    subst h2
    exact (hgood.1 j (List.mem_of_find?_eq_some hf)).2.2
  | none =>
    cases hc : tr.construct k with
    | none =>
      rw [get_miss_fail tr d k st hf hc] at h
      simp at h
    | some sv =>
      obtain ⟨s, v⟩ := sv
      rw [get_miss_construct tr d k st s v hf hc] at h
      simp only [Prod.mk.injEq, Option.some.injEq] at h
      obtain ⟨h1, h2⟩ := h
      subst h1
      subst h2
      exact Nat.lt_succ_self _

/-- The init callback sets the dialect and guarantees a value type. -/
theorem initAttribute_fields (d : Nat) (s : AttributeStorage) :
    (initAttribute d s).dialect = some d ∧
    (initAttribute d s).valueType.isSome = true := by
  cases hv : s.valueType with
  | none =>
    simp [initAttribute, AttributeStorage.initDialect, AttributeStorage.setType, hv]
  | some t =>
    simp [initAttribute, AttributeStorage.initDialect, AttributeStorage.setType, hv]

theorem goodState_get (tr : UniquerTrait K V) (d : Nat) (k : K)
    (st : UniquerState V) (hgood : goodState st) :
    goodState (get tr d k st).2 := by
  unfold get
  cases hf : st.table.find? (matchesKey tr k) with
  | some j => exact hgood
  | none =>
    cases hc : tr.construct k with
    | none => exact hgood
    | some sv =>
      constructor
      · intro i hi
        cases List.mem_cons.1 hi with
        | inl he =>
          subst he
          refine ⟨?_, (initAttribute_fields d sv.1).2, Nat.lt_succ_self _⟩
          rw [(initAttribute_fields d sv.1).1]
          rfl
        | inr hm =>
          obtain ⟨h1, h2, h3⟩ := hgood.1 i hm
          exact ⟨h1, h2, Nat.lt_succ_of_lt h3⟩
      · show ((_ :: st.table).map Inst.id).Nodup
        rw [List.map_cons]
        refine List.nodup_cons.2 ⟨?_, hgood.2⟩
        intro hmem
        obtain ⟨j, hj, hid⟩ := List.mem_map.1 hmem
        exact Nat.lt_irrefl _ (hid ▸ (hgood.1 j hj).2.2)

theorem goodState_erase (tr : UniquerTrait K V) (k : K)
    (st : UniquerState V) (hgood : goodState st) :
    goodState (erase tr k st) := by
  constructor
  · intro i hi
    exact hgood.1 i (List.mem_of_mem_filter hi)
  · exact List.Nodup.sublist ((List.filter_sublist _).map Inst.id) hgood.2

theorem goodState_runOps (tr : UniquerTrait K V) (ops : List (Op K)) :
    ∀ st : UniquerState V, goodState st → goodState (runOps tr ops st) := by
  induction ops with
  | nil => intro st h; exact h
  | cons op ops ih =>
    intro st h
    cases op with
    | getOp d k => exact ih _ (goodState_get tr d k st h)
    | eraseOp k => exact ih _ (goodState_erase tr k st h)

/-- The init callback does not touch the function-cache bit. -/
theorem initAttribute_flag (d : Nat) (s : AttributeStorage) :
    (initAttribute d s).isOrContainsFunctionCache =
      s.isOrContainsFunctionCache := by
  cases hv : s.valueType <;>
    simp [initAttribute, AttributeStorage.initDialect, AttributeStorage.setType,
      AttributeStorage.isOrContainsFunctionCache, hv]

end AttributeUniquer

/-- A fresh session's empty table is well formed. -/
theorem goodState_empty (V : Type) : goodState (emptyState V) :=
  ⟨fun i hi => absurd hi (List.not_mem_nil i), List.nodup_nil⟩

/-- `natTrait` obeys the trait contract (a constructed instance represents
its key) at every key. -/
theorem natTrait_constructMatches (k : Nat) : constructMatches natTrait k := by
  intro s v h
  by_cases h13 : k = 13
  · subst h13
    simp [natTrait] at h
  · simp [natTrait, h13] at h
    obtain ⟨-, hv⟩ := h
    subst hv
    simp [natTrait]

/-- `modTrait` obeys the trait contract at every key. -/
theorem modTrait_constructMatches (k : Nat) : constructMatches modTrait k := by
  intro s v h
  simp [modTrait] at h
  obtain ⟨-, hv⟩ := h
  subst hv
  simp [modTrait]

/-- C1: for every kind and every pair of construction keys that denote the
same logical value under the kind's `isEqual` relation (and hence, by the
trait contract, hash equal), `get` on the first key followed by `get` on
the second returns identity-equal instances: value equality of published
instances coincides with identity equality. -/
theorem canonical_identity (tr : UniquerTrait K V) (d d' : Nat) (A B : K)
    (st st1 st2 : UniquerState V) (i1 i2 : Inst V)
    (hhash : tr.hashKey A = tr.hashKey B)
    (heq : ∀ v, tr.isEqual v A = tr.isEqual v B)
    (hcons : constructMatches tr A)
    (h1 : AttributeUniquer.get tr d A st = (some i1, st1))
    (h2 : AttributeUniquer.get tr d' B st1 = (some i2, st2)) :
    i1 = i2 := by
  have hpred : matchesKey tr A = matchesKey tr B := by
    funext i
    simp only [matchesKey, hhash, heq]
  have hf : st1.table.find? (matchesKey tr B) = some i1 := by
    rw [← hpred]
    exact AttributeUniquer.get_some_find? tr d A st st1 i1 hcons h1
  rw [AttributeUniquer.get_hit tr d' B st1 i1 hf] at h2
  simp only [Prod.mk.injEq, Option.some.injEq] at h2
  exact h2.1

/-- Witness for `canonical_identity`: under `modTrait`, keys 5 and 15
denote the same value modulo 10 and the second `get` returns the instance
the first one published. -/
theorem canonical_identity_witness :
    AttributeUniquer.get modTrait 1 15 stW = (some instW, stW) ∧ instW = instW :=
  ⟨by decide,
   canonical_identity modTrait 0 1 5 15 (emptyState Nat) stW stW instW instW
     rfl (fun v => rfl) (modTrait_constructMatches 5) (by decide) (by decide)⟩

/-- C2: after a successful `get`, any number of repeated `get` calls with
the same key (the serialized order of the contending callers) return the
same instance as the first call and leave the state untouched: a hit
returns immediately, allocating nothing and invoking neither `construct`
nor the init callback (the arena counter and the construct count are those
of the unchanged state). -/
theorem get_repeat_same_instance (tr : UniquerTrait K V) (d d' : Nat) (k : K)
    (st st1 : UniquerState V) (i : Inst V) (n : Nat)
    (hcons : constructMatches tr k)
    (h : AttributeUniquer.get tr d k st = (some i, st1)) :
    AttributeUniquer.getN tr d' k n st1 = (List.replicate n (some i), st1) :=
  AttributeUniquer.getN_stable tr d d' k st st1 i hcons h n

/-- Witness for `get_repeat_same_instance`: two repeats of `get` for key 5
after its first call keep returning `instN` and leave `stN` unchanged. -/
theorem get_repeat_same_instance_witness :
    AttributeUniquer.getN natTrait 4 5 2 stN = (List.replicate 2 (some instN), stN) :=
  get_repeat_same_instance natTrait 3 4 5 (emptyState Nat) stN instN 2
    (natTrait_constructMatches 5) (by decide)

/-- C3: an `erase` for key `A` followed by a `get` for `A` yields a freshly
constructed instance whose identity differs from the instance returned for
`A` before the erase, whatever serialized operations happen in between:
arena identities are never reused, so the erased instance is never
resurrected. -/
theorem erase_then_get_fresh (tr : UniquerTrait K V) (d d' : Nat) (A : K)
    (ops : List (Op K)) (st0 st1 st2 : UniquerState V) (j i : Inst V)
    (hgood : goodState st0)
    (h1 : AttributeUniquer.get tr d A st0 = (some j, st1))
    (h2 : AttributeUniquer.get tr d' A
        (AttributeUniquer.erase tr A (runOps tr ops st1)) = (some i, st2)) :
    i.id ≠ j.id := by
  have hjlt : j.id < st1.nextId :=
    AttributeUniquer.get_ret_id_lt tr d A st0 st1 j hgood h1
  have hmono : st1.nextId ≤ (runOps tr ops st1).nextId :=
    AttributeUniquer.runOps_nextId_le tr ops st1
  have hf := AttributeUniquer.erase_find?_none tr A (runOps tr ops st1)
  cases hc : tr.construct A with
  | none =>
    rw [AttributeUniquer.get_miss_fail tr d' A _ hf hc] at h2
    simp at h2
  | some sv =>
    obtain ⟨s, v⟩ := sv
    rw [AttributeUniquer.get_miss_construct tr d' A _ s v hf hc] at h2
    simp only [Prod.mk.injEq, Option.some.injEq] at h2
    obtain ⟨hi, -⟩ := h2
    subst hi
    show (runOps tr ops st1).nextId ≠ j.id
    exact (Nat.ne_of_lt (Nat.lt_of_lt_of_le hjlt hmono)).symm

/-- Witness for `erase_then_get_fresh`: erasing key 5 and getting it again
produces an instance with arena identity 1, distinct from `instN`. -/
theorem erase_then_get_fresh_witness :
    ({ id := 1, hashValue := 5,
       storage := { dialect := some 3, valueType := some MType.noneType,
                    containsFunctionCache := false },
       payload := 5 } : Inst Nat).id ≠ instN.id :=
  erase_then_get_fresh natTrait 3 3 5 [] (emptyState Nat) stN
    { table := [{ id := 1, hashValue := 5,
                  storage := { dialect := some 3,
                               valueType := some MType.noneType,
                               containsFunctionCache := false },
                  payload := 5 }],
      nextId := 2, constructCount := 2 }
    instN
    { id := 1, hashValue := 5,
      storage := { dialect := some 3, valueType := some MType.noneType,
                   containsFunctionCache := false },
      payload := 5 }
    (goodState_empty Nat) (by decide) (by decide)

/-- C4: every instance returned by `get` from a well-formed state has its
owning dialect and its value type fully set before it is exposed: the init
callback runs exactly once, on the miss path between allocation and
insertion, so `getDialect` on a returned instance never observes a null
dialect. -/
theorem get_returns_published (tr : UniquerTrait K V) (d : Nat) (k : K)
    (st st' : UniquerState V) (i : Inst V)
    (hgood : goodState st)
    (h : AttributeUniquer.get tr d k st = (some i, st')) :
    i.storage.getDialect.isSome = true ∧ i.storage.getType.isSome = true := by
  cases hf : st.table.find? (matchesKey tr k) with
  | some j =>
    rw [AttributeUniquer.get_hit tr d k st j hf] at h
    simp only [Prod.mk.injEq, Option.some.injEq] at h
    obtain ⟨h1, -⟩ := h
    subst h1
    obtain ⟨hd, ht, -⟩ := hgood.1 j (List.mem_of_find?_eq_some hf)
    exact ⟨hd, ht⟩
  | none =>
    cases hc : tr.construct k with
    | none =>
      rw [AttributeUniquer.get_miss_fail tr d k st hf hc] at h
      simp at h
    | some sv =>
      obtain ⟨s, v⟩ := sv
      rw [AttributeUniquer.get_miss_construct tr d k st s v hf hc] at h
      simp only [Prod.mk.injEq, Option.some.injEq] at h
      obtain ⟨h1, -⟩ := h
      subst h1
      refine ⟨?_, (AttributeUniquer.initAttribute_fields d s).2⟩
      show (initAttribute d s).dialect.isSome = true
      rw [(AttributeUniquer.initAttribute_fields d s).1]
      rfl

/-- Witness for `get_returns_published`: the instance returned for key 5
has its dialect and its type set. -/
theorem get_returns_published_witness :
    instN.storage.getDialect.isSome = true ∧
      instN.storage.getType.isSome = true :=
  get_returns_published natTrait 3 5 (emptyState Nat) stN instN
    (goodState_empty Nat) (by decide)

/-- C5: a `get` that misses and whose trait constructor supplied no
explicit type returns an instance whose value type is the canonical
`NoneType` sentinel, installed by the init callback before the instance is
published. -/
theorem get_default_type (tr : UniquerTrait K V) (d : Nat) (k : K)
    (st st' : UniquerState V) (i : Inst V) (s : AttributeStorage) (v : V)
    (hf : st.table.find? (matchesKey tr k) = none)
    (hc : tr.construct k = some (s, v))
    (hty : s.valueType = none)
    (h : AttributeUniquer.get tr d k st = (some i, st')) :
    i.storage.getType = some MType.noneType := by
  rw [AttributeUniquer.get_miss_construct tr d k st s v hf hc] at h
  simp only [Prod.mk.injEq, Option.some.injEq] at h
  obtain ⟨h1, -⟩ := h
  subst h1
  show (initAttribute d s).valueType = some MType.noneType
  simp [initAttribute, AttributeStorage.initDialect, AttributeStorage.setType, hty]

/-- Witness for `get_default_type`: `natTrait` constructs with no explicit
type, and the returned instance carries the `NoneType` sentinel. -/
theorem get_default_type_witness :
    instN.storage.getType = some MType.noneType :=
  get_default_type natTrait 3 5 (emptyState Nat) stN instN
    (AttributeStorage.mkFlag false) 5 (by decide) (by decide) (by decide)
    (by decide)

/-- C6: when the trait's `construct` fails on a table miss, `get`
propagates the failure synchronously (result `none`) and performs no table
mutation: the state it returns is exactly the pre-call state, so every
later `get` or `erase` observes the original "not found" table with no
partially inserted entry. -/
theorem get_construct_failure (tr : UniquerTrait K V) (d : Nat) (k : K)
    (st : UniquerState V)
    (hf : st.table.find? (matchesKey tr k) = none)
    (hc : tr.construct k = none) :
    AttributeUniquer.get tr d k st = (none, st) :=
  AttributeUniquer.get_miss_fail tr d k st hf hc

/-- Witness for `get_construct_failure`: key 13 fails construction under
`natTrait` and the empty table is returned untouched. -/
theorem get_construct_failure_witness :
    AttributeUniquer.get natTrait 3 13 (emptyState Nat) =
      (none, emptyState Nat) :=
  get_construct_failure natTrait 3 13 (emptyState Nat) (by decide) (by decide)

/-- C7: `erase` is idempotent and never fails: repeating it with the same
key changes nothing, it is a no-op (not an error) when no instance matches
the key, and it never physically frees memory nor undoes a construction
(the arena counter and the construct count are untouched). -/
theorem erase_idempotent (tr : UniquerTrait K V) (k : K) (st : UniquerState V) :
    AttributeUniquer.erase tr k (AttributeUniquer.erase tr k st) =
      AttributeUniquer.erase tr k st ∧
    (st.table.find? (matchesKey tr k) = none →
      AttributeUniquer.erase tr k st = st) ∧
    (AttributeUniquer.erase tr k st).nextId = st.nextId ∧
    (AttributeUniquer.erase tr k st).constructCount = st.constructCount := by
  refine ⟨?_, ?_, rfl, rfl⟩
  · simp only [AttributeUniquer.erase, List.filter_filter, Bool.and_self]
  · intro h
    have htab : st.table.filter (fun i => !matchesKey tr k i) = st.table := by
      apply List.filter_eq_self.2
      intro a ha
      have hm := List.find?_eq_none.1 h a ha
      simp only [Bool.not_eq_true] at hm
      simp [hm]
    show ({ st with table := st.table.filter fun i => !matchesKey tr k i } :
      UniquerState V) = st
    rw [htab]

/-- Witness for `erase_idempotent`: erasing the absent key 7 leaves the
table unchanged. -/
theorem erase_idempotent_witness :
    AttributeUniquer.erase natTrait 7 stN = stN :=
  (erase_idempotent natTrait 7 stN).2.1 (by decide)

/-- C8: `get` calls for two keys that denote genuinely distinct logical
values (no payload satisfies `isEqual` for both) return instances with
distinct identities: uniquing never collapses distinct values. -/
theorem distinct_values_distinct (tr : UniquerTrait K V) (d d' : Nat)
    (A B : K) (st st1 st2 : UniquerState V) (i1 i2 : Inst V)
    (hgood : goodState st)
    (hconsA : constructMatches tr A)
    (hdist : ∀ v, tr.isEqual v A = true → tr.isEqual v B = false)
    (h1 : AttributeUniquer.get tr d A st = (some i1, st1))
    (h2 : AttributeUniquer.get tr d' B st1 = (some i2, st2)) :
    i1.id ≠ i2.id := by
  have hg1 : goodState st1 := by
    have hgg := AttributeUniquer.goodState_get tr d A st hgood
    rw [h1] at hgg
    exact hgg
  have hfind1 : st1.table.find? (matchesKey tr A) = some i1 :=
    AttributeUniquer.get_some_find? tr d A st st1 i1 hconsA h1
  have hmem1 : i1 ∈ st1.table := List.mem_of_find?_eq_some hfind1
  have hEq1 : tr.isEqual i1.payload A = true := by
    have hm := List.find?_some hfind1
    simp only [matchesKey, Bool.and_eq_true] at hm
    exact hm.2
  cases hf : st1.table.find? (matchesKey tr B) with
  | some j =>
    rw [AttributeUniquer.get_hit tr d' B st1 j hf] at h2
    simp only [Prod.mk.injEq, Option.some.injEq] at h2
    obtain ⟨hj, -⟩ := h2
    subst hj
    intro hid
    have hmem2 : j ∈ st1.table := List.mem_of_find?_eq_some hf
    have hij : i1 = j := List.inj_on_of_nodup_map hg1.2 hmem1 hmem2 hid
    subst hij
    have hEq2 : tr.isEqual i1.payload B = true := by
      have hm := List.find?_some hf
      simp only [matchesKey, Bool.and_eq_true] at hm
      exact hm.2
    rw [hdist i1.payload hEq1] at hEq2
    exact Bool.false_ne_true hEq2
  | none =>
    cases hc : tr.construct B with
    | none =>
      rw [AttributeUniquer.get_miss_fail tr d' B st1 hf hc] at h2
      simp at h2
    | some sv =>
      obtain ⟨s, v⟩ := sv
      rw [AttributeUniquer.get_miss_construct tr d' B st1 s v hf hc] at h2
      simp only [Prod.mk.injEq, Option.some.injEq] at h2
      obtain ⟨hi2, -⟩ := h2
      subst hi2
      show i1.id ≠ st1.nextId
      exact Nat.ne_of_lt (hg1.1 i1 hmem1).2.2

/-- Witness for `distinct_values_distinct`: keys 5 and 6 under `natTrait`
yield instances with identities 0 and 1. -/
theorem distinct_values_distinct_witness : instN.id ≠ instN6.id :=
  distinct_values_distinct natTrait 3 4 5 6 (emptyState Nat) stN stN6
    instN instN6 (goodState_empty Nat) (natTrait_constructMatches 5)
    (by
      intro v hv
      simp [natTrait] at hv
      subst hv
      decide)
    (by decide) (by decide)

/-- C9: `n + 1` contending `get` calls for the same key with no prior
entry, serialized by the per-kind guard, trigger exactly one `construct`
call (the construct count rises by exactly one) and all return the single
instance published by the first: the at-most-one-instance invariant holds
under contention. -/
theorem concurrent_single_construction (tr : UniquerTrait K V) (d : Nat)
    (k : K) (st : UniquerState V) (s : AttributeStorage) (v : V) (n : Nat)
    (hf : st.table.find? (matchesKey tr k) = none)
    (hc : tr.construct k = some (s, v))
    (hcons : constructMatches tr k) :
    AttributeUniquer.getN tr d k (n + 1) st =
      (List.replicate (n + 1) (some (freshInst tr d k st s v)),
        insertState tr d k st s v) ∧
    (insertState tr d k st s v).constructCount = st.constructCount + 1 := by
  have hget := AttributeUniquer.get_miss_construct tr d k st s v hf hc
  have hrep := AttributeUniquer.getN_stable tr d d k st
    (insertState tr d k st s v) (freshInst tr d k st s v) hcons hget n
  refine ⟨?_, rfl⟩
  show (let r1 := AttributeUniquer.get tr d k st
        let r2 := AttributeUniquer.getN tr d k n r1.2
        (r1.1 :: r2.1, r2.2)) = _
  rw [hget]
  simp only []
  rw [hrep, List.replicate_succ]

/-- Witness for `concurrent_single_construction`: three serialized callers
for key 5 all receive `instN` and exactly one construction happens. -/
theorem concurrent_single_construction_witness :
    AttributeUniquer.getN natTrait 3 5 3 (emptyState Nat) =
      (List.replicate 3 (some instN), stN) ∧ stN.constructCount = 1 :=
  concurrent_single_construction natTrait 3 5 (emptyState Nat)
    (AttributeStorage.mkFlag false) 5 2 (by decide) (by decide)
    (natTrait_constructMatches 5)

/-- C10: an `AttributeStorage` built without an explicit function-cache
flag (default constructor, or the typed constructor with its defaulted
second argument) reports `isOrContainsFunctionCache = false`; and for
every constructed instance the flag bit is fixed at construction: the init
callback preserves it, `erase` only drops whole instances, and after any
`get` each table entry is either a pre-existing instance (an unchanged
immutable value) or the fresh one, whose flag equals the flag of the
storage `construct` built. -/
theorem function_cache_flag_fixed :
    AttributeStorage.mkDefault.isOrContainsFunctionCache = false ∧
    (∀ t : MType,
      (AttributeStorage.mkTyped t).isOrContainsFunctionCache = false) ∧
    (∀ (d : Nat) (s : AttributeStorage),
      (initAttribute d s).isOrContainsFunctionCache =
        s.isOrContainsFunctionCache) ∧
    (∀ (K V : Type) (tr : UniquerTrait K V) (k : K) (st : UniquerState V)
      (i : Inst V),
      i ∈ (AttributeUniquer.erase tr k st).table → i ∈ st.table) ∧
    (∀ (K V : Type) (tr : UniquerTrait K V) (d : Nat) (k : K)
      (st : UniquerState V) (i : Inst V),
      i ∈ (AttributeUniquer.get tr d k st).2.table →
        i ∈ st.table ∨
          ∃ s v, tr.construct k = some (s, v) ∧
            i.storage.isOrContainsFunctionCache =
              s.isOrContainsFunctionCache) := by
  refine ⟨rfl, fun t => rfl, AttributeUniquer.initAttribute_flag, ?_, ?_⟩
  · intro K V tr k st i hi
    exact List.mem_of_mem_filter hi
  · intro K V tr d k st i hi
    cases hf : st.table.find? (matchesKey tr k) with
    | some j =>
      rw [AttributeUniquer.get_hit tr d k st j hf] at hi
      exact Or.inl hi
    | none =>
      cases hc : tr.construct k with
      | none =>
        rw [AttributeUniquer.get_miss_fail tr d k st hf hc] at hi
        exact Or.inl hi
      | some sv =>
        obtain ⟨s, v⟩ := sv
        rw [AttributeUniquer.get_miss_construct tr d k st s v hf hc] at hi
        have hi' : i ∈ freshInst tr d k st s v :: st.table := hi
        cases List.mem_cons.1 hi' with
        | inl he =>
          refine Or.inr ⟨s, v, rfl, ?_⟩
          subst he
          exact AttributeUniquer.initAttribute_flag d s
        | inr hm => exact Or.inl hm

/-- Witness for `function_cache_flag_fixed`: an instance surviving an
`erase` was already in the table (table entries are never mutated). -/
theorem function_cache_flag_fixed_witness : instN ∈ stN.table :=
  function_cache_flag_fixed.2.2.2.1 Nat Nat natTrait 7 stN instN (by decide)

end MLIRAttr
